import Mathlib

/-!
Shallow embedding of the trajectory engine of
src/projectile-motion-simulator.cpp.  Machine `float` values are modelled
as real numbers with exact arithmetic, and `cos`, `sin`, `sqrt` are the
corresponding real functions.  The two trajectory loops are modelled as
recursions on an explicit iteration count that matches the number of
iterations the source loop performs in exact arithmetic.
-/

namespace Projectile

/-- The source's global constant PI, the float literal 3.14159265f (line 6). -/
noncomputable def PI : ℝ := 3.14159265

/-- The ProjectileData input record (source lines 13-23). -/
structure ProjectileData where
  initialVelocity : ℝ
  angle : ℝ
  gravity : ℝ
  airResistance : Bool
  dragCoefficient : ℝ
  mass : ℝ

/-- Body of the for-loop of calculateAnalytical (source lines 51-57), as a
recursion on a remaining-iteration count.  In exact arithmetic the time
accumulator equals its start value plus a multiple of dt, so the loop
condition t ≤ totalTime fails for the first time at a fixed iteration index;
the caller passes that index as fuel, and the t ≤ totalTime loop condition
is still tested at every step, so running out of fuel coincides with the
loop condition failing. -/
noncomputable def analyticalAux (vx vy g dt totalTime : ℝ) : ℕ → ℝ → List (ℝ × ℝ)
  | 0, _ => []
  | fuel + 1, t =>
    if t ≤ totalTime then
      let x := vx * t
      let y := vy * t - 0.5 * g * (t * t)
      if y < 0 then []
      else (x, y) :: analyticalAux vx vy g dt totalTime fuel (t + dt)
    else []

/-- calculateAnalytical (source lines 43-58): angle converted to radians with
the source's PI constant, velocity decomposed, closed-form total flight time
2·vy/g, then the sampling loop at fixed step dt = 0.02 starting at t = 0.
The iteration bound ⌊totalTime/dt⌋ + 1 is the exact number of loop entries
with t ≤ totalTime (and 0 when totalTime < 0, where the loop body never
runs). -/
noncomputable def calculateAnalytical (v angle g : ℝ) : List (ℝ × ℝ) :=
  let angleRad := angle * PI / 180
  let vx := v * Real.cos angleRad
  let vy := v * Real.sin angleRad
  let totalTime := 2 * vy / g
  let dt : ℝ := 0.02
  analyticalAux vx vy g dt totalTime (⌊totalTime / dt⌋ + 1).toNat 0

/-- The while (y ≥ 0) loop of calculateNumerical (source lines 71-91).
fuel is the number of points the loop may still append: the source breaks
as soon as trajectoryPoints.size() > 10000, i.e. immediately after the
10001st point is appended, so the caller starts with fuel = 10001.
The step mirrors the source exactly: drag accelerations are zero unless
speed > 0.001, velocity is updated first, position second (the position
update uses the already-updated velocity). -/
noncomputable def numericalLoop (g dragCoefficient mass : ℝ) :
    ℕ → ℝ → ℝ → ℝ → ℝ → List (ℝ × ℝ)
  | 0, _, _, _, _ => []
  | fuel + 1, x, y, vx, vy =>
    if y < 0 then []
    else
      let dt : ℝ := 0.01
      let speed := Real.sqrt (vx * vx + vy * vy)
      let dragForce := 0.5 * 1.225 * dragCoefficient * 0.01 * speed * speed
      let dragAccelX := if speed > 0.001 then -(dragForce / mass) * (vx / speed) else 0
      let dragAccelY := if speed > 0.001 then -(dragForce / mass) * (vy / speed) else 0
      let vx2 := vx + dragAccelX * dt
      let vy2 := vy + (dragAccelY - g) * dt
      let x2 := x + vx2 * dt
      let y2 := y + vy2 * dt
      (x, y) :: numericalLoop g dragCoefficient mass fuel x2 y2 vx2 vy2

/-- calculateNumerical (source lines 60-92): same velocity decomposition as
the analytical path, state starts at x = y = 0, then the Euler loop with
dt = 0.01 and the 10001-append cap. -/
noncomputable def calculateNumerical (v angle g dragCoefficient mass : ℝ) :
    List (ℝ × ℝ) :=
  let angleRad := angle * PI / 180
  let vx := v * Real.cos angleRad
  let vy := v * Real.sin angleRad
  numericalLoop g dragCoefficient mass 10001 0 0 vx vy

/-- calculateTrajectory (source lines 33-41): clears the stored points and
dispatches on the airResistance flag.  The source performs no parameter
validation before computing. -/
noncomputable def calculateTrajectory (d : ProjectileData) : List (ℝ × ℝ) :=
  if !d.airResistance then
    calculateAnalytical d.initialVelocity d.angle d.gravity
  else
    calculateNumerical d.initialVelocity d.angle d.gravity d.dragCoefficient d.mass

/-- getMaxHeight (source lines 94-100): running maximum of the y values,
starting from 0. -/
noncomputable def getMaxHeight (tr : List (ℝ × ℝ)) : ℝ :=
  tr.foldl (fun maxH p => if p.2 > maxH then p.2 else maxH) 0

/-- getRange (source lines 102-105): x of the last stored point, 0 when the
trajectory is empty. -/
def getRange (tr : List (ℝ × ℝ)) : ℝ :=
  match tr.getLast? with
  | none => 0
  | some p => p.1

/-- getFlightTime (source lines 107-109): sample count times the time step
selected by the airResistance flag. -/
noncomputable def getFlightTime (d : ProjectileData) (tr : List (ℝ × ℝ)) : ℝ :=
  tr.length * (if d.airResistance then 0.01 else 0.02)

/-- Declarative reading of the spec's description of the drag-free path
(spec section 4.1): samples at every time i·dt with i·dt ≤ T where
T = 2·vy/g, each sample being (vx·t, vy·t − ½·g·t²), truncated at the first
sample whose y is negative.  Written from the spec's words, to be compared
with calculateAnalytical. -/
noncomputable def specAnalytical (v angle g : ℝ) : List (ℝ × ℝ) :=
  let angleRad := angle * PI / 180
  let vx := v * Real.cos angleRad
  let vy := v * Real.sin angleRad
  let T := 2 * vy / g
  let dt : ℝ := 0.02
  ((List.range (⌊T / dt⌋ + 1).toNat).map fun i : ℕ =>
      (vx * ((i : ℝ) * dt), vy * ((i : ℝ) * dt) - g * ((i : ℝ) * dt) ^ 2 / 2)).takeWhile
    fun p => decide (0 ≤ p.2)

/-! ### Helper lemmas about the numerical loop -/

/-- The numerical loop never produces more points than its fuel allows. -/
theorem numericalLoop_length_le (g Cd m : ℝ) :
    ∀ (fuel : ℕ) (x y vx vy : ℝ), (numericalLoop g Cd m fuel x y vx vy).length ≤ fuel := by
  intro fuel
  induction fuel with
  | zero => intro x y vx vy; simp [numericalLoop]
  | succ n ih =>
    intro x y vx vy
    simp only [numericalLoop]
    split
    · simp
    · simpa using Nat.succ_le_succ (ih _ _ _ _)

/-- Every point the numerical loop stores has nonnegative y: the loop
condition y ≥ 0 is checked before the point is appended. -/
theorem numericalLoop_mem_nonneg (g Cd m : ℝ) :
    ∀ (fuel : ℕ) (x y vx vy : ℝ) (p : ℝ × ℝ),
      p ∈ numericalLoop g Cd m fuel x y vx vy → 0 ≤ p.2 := by
  intro fuel
  induction fuel with
  | zero => intro x y vx vy p hp; simp [numericalLoop] at hp
  | succ n ih =>
    intro x y vx vy p hp
    simp only [numericalLoop] at hp
    by_cases hy : y < 0
    · simp [hy] at hp
    · rw [if_neg hy] at hp
      rcases List.mem_cons.mp hp with h | h
      · subst h; exact le_of_not_lt hy
      · exact ih _ _ _ _ _ h

/-- When the loop condition holds and fuel remains, the first stored point
is the current state. -/
theorem numericalLoop_head (g Cd m : ℝ) (fuel : ℕ) (x y vx vy : ℝ) (hy : ¬ y < 0) :
    (numericalLoop g Cd m (fuel + 1) x y vx vy).head? = some (x, y) := by
  simp only [numericalLoop]
  rw [if_neg hy]
  rfl

/-- With zero gravity and a state at rest at the origin, every step of the
numerical loop re-appends the origin: speed is 0, so the drag guard keeps
both drag accelerations at zero, and with g = 0 the velocity stays zero. -/
theorem numericalLoop_zero_state (Cd m : ℝ) :
    ∀ fuel : ℕ, numericalLoop 0 Cd m fuel 0 0 0 0 = List.replicate fuel ((0 : ℝ), (0 : ℝ)) := by
  intro fuel
  induction fuel with
  | zero => simp [numericalLoop]
  | succ n ih =>
    simp only [numericalLoop]
    have hlt : ¬ (0 : ℝ) < 0 := lt_irrefl 0
    have hspeed : Real.sqrt ((0 : ℝ) * 0 + 0 * 0) = 0 := by
      norm_num
    rw [if_neg hlt]
    simp only [hspeed]
    have hguard : ¬ ((0.001 : ℝ) < 0) := by norm_num
    simp only [gt_iff_lt, if_neg hguard]
    norm_num [ih, List.replicate_succ]

/-! ### Claim theorems about the numerical (drag) path -/

/-- C10: for every parameter setting, including those with vy ≤ 0, the
numerical path produces a non-empty trajectory whose first stored point is
exactly (0,0): the initial state satisfies the loop entry condition and the
current point is appended before any state update. -/
theorem numerical_starts_at_origin (v angle g Cd m : ℝ) :
    (calculateNumerical v angle g Cd m).head? = some ((0 : ℝ), (0 : ℝ)) := by
  show (numericalLoop g Cd m (10000 + 1) 0 0 _ _).head? = some ((0 : ℝ), (0 : ℝ))
  exact numericalLoop_head g Cd m 10000 0 0 _ _ (lt_irrefl 0)

/-- C3 (amended): the numerical path stores at most 10001 sample points; the
cap check size > 10000 runs after the append, so up to 10001 points can be
stored, never more. -/
theorem numerical_length_le_cap (v angle g Cd m : ℝ) :
    (calculateNumerical v angle g Cd m).length ≤ 10001 :=
  numericalLoop_length_le g Cd m 10001 _ _ _ _

/-- C3 (counterexample): the claim "the trajectory produced with drag enabled
never exceeds 10,000 samples" is false: with initialVelocity = 0 and
gravity = 0 the state never leaves the origin, the y < 0 exit never fires,
and the cap appends 10001 points before breaking. -/
theorem numerical_cap_counterexample :
    (calculateTrajectory ⟨0, 0, 0, true, 0.47, 1⟩).length = 10001 := by
  have h : calculateTrajectory ⟨0, 0, 0, true, 0.47, 1⟩ =
      numericalLoop 0 0.47 1 10001 0 0 (0 * Real.cos (0 * PI / 180))
        (0 * Real.sin (0 * PI / 180)) := rfl
  rw [h, zero_mul, zero_mul, numericalLoop_zero_state]
  exact List.length_replicate _ _

/-- C4 (counterexample): the claim that some drag trajectory ends with a
stored point of negative y is false: the y ≥ 0 loop condition is checked
before appending, so no stored point — in particular not the last — ever has
negative y, for any input. -/
theorem numerical_negative_last_impossible :
    ¬ ∃ (v angle g Cd m : ℝ) (q : ℝ × ℝ),
        (calculateNumerical v angle g Cd m).getLast? = some q ∧ q.2 < 0 := by
  rintro ⟨v, angle, g, Cd, m, q, hq, hneg⟩
  have hmem : q ∈ calculateNumerical v angle g Cd m := by
    rcases List.mem_getLast?_eq_getLast (by simpa using hq) with ⟨hne, hql⟩
    rw [hql]
    exact List.getLast_mem hne
  have := numericalLoop_mem_nonneg g Cd m 10001 _ _ _ _ q hmem
  linarith

/-- C4 (amended): the drag loop terminates when y < 0 is detected at the top
of an iteration, before the point is appended, so every stored point — in
particular the final one — has y ≥ 0. -/
theorem numerical_stored_nonneg (v angle g Cd m : ℝ) (q : ℝ × ℝ)
    (hq : q ∈ calculateNumerical v angle g Cd m) : 0 ≤ q.2 :=
  numericalLoop_mem_nonneg g Cd m 10001 _ _ _ _ q hq

/-- Witness for C4 (amended) at a concrete input: with v = 0, angle = 0,
g = 9.8 the drag trajectory contains (0,0), and the theorem applies to it. -/
theorem numerical_stored_nonneg_witness :
    (((0 : ℝ), (0 : ℝ)) ∈ calculateNumerical 0 0 9.8 0.47 1) ∧
      (0 : ℝ) ≤ ((0 : ℝ), (0 : ℝ)).2 := by
  have hmem : ((0 : ℝ), (0 : ℝ)) ∈ calculateNumerical 0 0 9.8 0.47 1 := by
    apply List.mem_of_mem_head?
    have h : (calculateNumerical 0 0 9.8 0.47 1).head? = some ((0 : ℝ), (0 : ℝ)) :=
      numericalLoop_head 9.8 0.47 1 10000 0 0 _ _ (lt_irrefl 0)
    rw [h]; rfl
  exact ⟨hmem, numerical_stored_nonneg 0 0 9.8 0.47 1 (0, 0) hmem⟩

/-- C8: in every iteration of the drag loop the division by speed is
performed only when speed > 0.001: when speed ≤ 0.001 both drag
accelerations are zero, so the step reduces to pure gravity on the velocity
and the usual position update; and whenever the division is performed the
divisor is nonzero. -/
theorem drag_guard_zero_speed (g Cd m : ℝ) (fuel : ℕ) (x y vx vy : ℝ)
    (hy : ¬ y < 0) :
    (Real.sqrt (vx * vx + vy * vy) ≤ 0.001 →
      numericalLoop g Cd m (fuel + 1) x y vx vy =
        (x, y) :: numericalLoop g Cd m fuel
          (x + vx * 0.01) (y + (vy + (0 - g) * 0.01) * 0.01)
          vx (vy + (0 - g) * 0.01)) ∧
    (0.001 < Real.sqrt (vx * vx + vy * vy) →
      Real.sqrt (vx * vx + vy * vy) ≠ 0) := by
  constructor
  · intro hle
    simp only [numericalLoop, if_neg hy, gt_iff_lt, if_neg (not_lt.mpr hle)]
    norm_num
  · intro hlt
    exact ne_of_gt (lt_trans (by norm_num) hlt)

/-- Witness for C8 at the resting state: speed = sqrt 0 = 0 ≤ 0.001, and the
step keeps vx and applies only gravity to vy. -/
theorem drag_guard_zero_speed_witness :
    (¬ (0 : ℝ) < 0) ∧
      ((Real.sqrt ((0 : ℝ) * 0 + 0 * 0) ≤ 0.001 →
        numericalLoop 9.8 0.47 1 (0 + 1) 0 0 0 0 =
          ((0 : ℝ), (0 : ℝ)) :: numericalLoop 9.8 0.47 1 0
            (0 + 0 * 0.01) (0 + (0 + (0 - 9.8) * 0.01) * 0.01)
            0 (0 + (0 - 9.8) * 0.01)) ∧
      (0.001 < Real.sqrt ((0 : ℝ) * 0 + 0 * 0) →
        Real.sqrt ((0 : ℝ) * 0 + 0 * 0) ≠ 0)) :=
  ⟨by norm_num, drag_guard_zero_speed 9.8 0.47 1 0 0 0 0 0 (by norm_num)⟩

/-- C2: each integration step of the drag path computes speed = sqrt(vx²+vy²),
the drag force F = ½·ρ·Cd·A·speed² with the fixed constants ρ = 1.225 and
A = 0.01, decomposes it into accelerations −(F/mass)·(v_axis/speed) opposing
the velocity on each axis (zero below the speed threshold), and updates the
velocity first and the position second with dt = 0.01, the position update
using the already-updated velocity. -/
theorem drag_step_formulas (g Cd m : ℝ) (fuel : ℕ) (x y vx vy : ℝ) (hy : 0 ≤ y)
    (speed F ax ay vx2 vy2 x2 y2 : ℝ)
    (hspeed : speed = Real.sqrt (vx ^ 2 + vy ^ 2))
    (hF : F = 1 / 2 * 1.225 * Cd * 0.01 * speed ^ 2)
    (hax : ax = if 0.001 < speed then -(F / m) * (vx / speed) else 0)
    (hay : ay = if 0.001 < speed then -(F / m) * (vy / speed) else 0)
    (hvx2 : vx2 = vx + ax * 0.01)
    (hvy2 : vy2 = vy + (ay - g) * 0.01)
    (hx2 : x2 = x + vx2 * 0.01)
    (hy2 : y2 = y + vy2 * 0.01) :
    numericalLoop g Cd m (fuel + 1) x y vx vy =
      (x, y) :: numericalLoop g Cd m fuel x2 y2 vx2 vy2 := by
  subst hspeed hF hax hay hvx2 hvy2 hx2 hy2
  simp only [numericalLoop, if_neg (not_lt.mpr hy), gt_iff_lt]
  ring_nf

/-- Witness for C2 at the resting state with g = 9.8, Cd = 0.47, m = 1:
speed is 0, drag accelerations are 0, the velocity picks up only gravity and
the position update uses the new velocity. -/
theorem drag_step_formulas_witness :
    ((0 : ℝ) ≤ 0) ∧
      numericalLoop 9.8 0.47 1 (0 + 1) 0 0 0 0 =
        ((0 : ℝ), (0 : ℝ)) :: numericalLoop 9.8 0.47 1 0 0 (-0.00098) 0 (-0.098) :=
  ⟨le_refl 0,
    drag_step_formulas 9.8 0.47 1 0 0 0 0 0 (le_refl 0)
      0 0 0 0 0 (-0.098) 0 (-0.00098)
      (by simp) (by norm_num) (by norm_num) (by norm_num)
      (by norm_num) (by norm_num) (by norm_num) (by norm_num)⟩

/-- C9: flightTime is the number of stored sample points times the time
step, 0.02 when the trajectory came from the analytical path and 0.01 when
it came from the numerical path. -/
theorem flightTime_eq_count_mul_step (d : ProjectileData) :
    getFlightTime d (calculateTrajectory d) =
      if d.airResistance then
        ((calculateNumerical d.initialVelocity d.angle d.gravity
            d.dragCoefficient d.mass).length : ℝ) * 0.01
      else
        ((calculateAnalytical d.initialVelocity d.angle d.gravity).length : ℝ) * 0.02 := by
  cases hd : d.airResistance <;>
    simp [getFlightTime, calculateTrajectory, hd]

/-! ### Helper lemmas about the analytical loop -/

/-- Unrolling of the analytical sampling loop: starting at time t with the
loop bound covering every remaining sample time, the loop produces the
samples at t, t + dt, t + 2·dt, …, truncated at the first negative y. -/
theorem analyticalAux_eq (vx vy g dt T : ℝ) :
    ∀ (fuel : ℕ) (t : ℝ), (∀ i : ℕ, i < fuel → t + i * dt ≤ T) →
      analyticalAux vx vy g dt T fuel t =
        ((List.range fuel).map fun i : ℕ =>
            (vx * (t + (i : ℝ) * dt),
              vy * (t + (i : ℝ) * dt) - g * (t + (i : ℝ) * dt) ^ 2 / 2)).takeWhile
          fun p => decide (0 ≤ p.2) := by
  intro fuel
  induction fuel with
  | zero => intro t h; simp [analyticalAux]
  | succ n ih =>
    intro t h
    have ht : t ≤ T := by simpa using h 0 n.succ_pos
    have hy0 : vy * (t + (0 : ℕ) * dt) - g * (t + (0 : ℕ) * dt) ^ 2 / 2
        = vy * t - 0.5 * g * (t * t) := by push_cast; ring
    rw [List.range_succ_eq_map, List.map_cons, List.takeWhile_cons]
    simp only [analyticalAux, if_pos ht]
    by_cases hneg : vy * t - 0.5 * g * (t * t) < 0
    · rw [if_pos hneg]
      have hfalse : ¬ (0 : ℝ) ≤ vy * (t + ((0 : ℕ) : ℝ) * dt)
          - g * (t + ((0 : ℕ) : ℝ) * dt) ^ 2 / 2 := by
        rw [hy0]; exact not_le.mpr hneg
      simp [hfalse]
      nlinarith [hneg]
    · rw [if_neg hneg]
      have hpos : (0 : ℝ) ≤ vy * (t + ((0 : ℕ) : ℝ) * dt)
          - g * (t + ((0 : ℕ) : ℝ) * dt) ^ 2 / 2 := by
        rw [hy0]; exact not_lt.mp hneg
      rw [if_pos (by simpa using hpos)]
      congr 1
      · have h1 : vx * (t + ((0 : ℕ) : ℝ) * dt) = vx * t := by push_cast; ring
        rw [h1, hy0]
      · have hshift : ∀ i : ℕ, i < n → (t + dt) + (i : ℝ) * dt ≤ T := by
          intro i hi
          have := h (i + 1) (Nat.succ_lt_succ hi)
          push_cast at this ⊢
          linarith
        rw [ih (t + dt) hshift, List.map_map]
        congr 1
        apply List.map_congr_left
        intro i _
        have harg : t + ((Nat.succ i : ℕ) : ℝ) * dt = (t + dt) + (i : ℝ) * dt := by
          push_cast; ring
        simp only [Function.comp_apply, harg]

/-- C1: for every drag-free run the computed trajectory equals its
declarative specification: the angle is converted to radians, the velocity
decomposed into vx = v·cosθ and vy = v·sinθ, the total flight time is
T = 2·vy/g, samples are taken at fixed step dt = 0.02 for every t = i·dt ≤ T
with x = vx·t and y = vy·t − ½·g·t², and emission stops at the first sample
whose y would be negative, so the last stored point is the last sample with
y ≥ 0. -/
theorem analytical_matches_spec (v angle g : ℝ) (hg : 0 < g) :
    calculateAnalytical v angle g = specAnalytical v angle g := by
  have harg : ∀ i : ℕ,
      i < (⌊(2 * (v * Real.sin (angle * PI / 180)) / g) / 0.02⌋ + 1).toNat →
      (0 : ℝ) + (i : ℝ) * 0.02 ≤ 2 * (v * Real.sin (angle * PI / 180)) / g := by
    intro i hi
    have h1 : (i : ℤ) < ⌊(2 * (v * Real.sin (angle * PI / 180)) / g) / 0.02⌋ + 1 :=
      Int.lt_toNat.mp hi
    have h2 : (i : ℤ) ≤ ⌊(2 * (v * Real.sin (angle * PI / 180)) / g) / 0.02⌋ := by omega
    have h3 : (i : ℝ) ≤ (2 * (v * Real.sin (angle * PI / 180)) / g) / 0.02 := by
      have h := Int.le_floor.mp h2
      push_cast at h
      exact h
    have h4 : (i : ℝ) * 0.02 ≤ 2 * (v * Real.sin (angle * PI / 180)) / g :=
      (le_div_iff₀ (by norm_num : (0 : ℝ) < 0.02)).mp h3
    linarith
  have h := analyticalAux_eq (v * Real.cos (angle * PI / 180))
      (v * Real.sin (angle * PI / 180)) g 0.02
      (2 * (v * Real.sin (angle * PI / 180)) / g)
      ((⌊(2 * (v * Real.sin (angle * PI / 180)) / g) / 0.02⌋ + 1).toNat) 0 harg
  show analyticalAux (v * Real.cos (angle * PI / 180))
      (v * Real.sin (angle * PI / 180)) g 0.02
      (2 * (v * Real.sin (angle * PI / 180)) / g)
      ((⌊(2 * (v * Real.sin (angle * PI / 180)) / g) / 0.02⌋ + 1).toNat) 0 =
    ((List.range ((⌊(2 * (v * Real.sin (angle * PI / 180)) / g) / 0.02⌋ + 1).toNat)).map
        fun i : ℕ =>
          (v * Real.cos (angle * PI / 180) * ((i : ℝ) * 0.02),
            v * Real.sin (angle * PI / 180) * ((i : ℝ) * 0.02)
              - g * ((i : ℝ) * 0.02) ^ 2 / 2)).takeWhile fun p => decide (0 ≤ p.2)
  rw [h]
  congr 1
  apply List.map_congr_left
  intro i _
  simp only [zero_add]

/-- Witness for C1 at v = 1, angle = 0, g = 9.8. -/
theorem analytical_matches_spec_witness :
    (0 : ℝ) < 9.8 ∧ calculateAnalytical 1 0 9.8 = specAnalytical 1 0 9.8 :=
  ⟨by norm_num, analytical_matches_spec 1 0 9.8 (by norm_num)⟩

/-! ### Degenerate-launch lemmas -/

/-- The drag loop stops immediately, storing nothing, when y is already
negative, for any fuel. -/
theorem numericalLoop_y_neg (g Cd m : ℝ) (fuel : ℕ) (x y vx vy : ℝ) (hy : y < 0) :
    numericalLoop g Cd m fuel x y vx vy = [] := by
  cases fuel with
  | zero => simp [numericalLoop]
  | succ n => simp [numericalLoop, if_pos hy]

/-- With zero initial vertical velocity and positive gravity, the drag loop
starting at the origin stores exactly the origin: the first Euler step sends
y below zero. -/
theorem numericalLoop_vy_zero (g Cd m vx : ℝ) (hg : 0 < g) :
    numericalLoop g Cd m 10001 0 0 vx 0 = [((0 : ℝ), (0 : ℝ))] := by
  show numericalLoop g Cd m (10000 + 1) 0 0 vx 0 = [((0 : ℝ), (0 : ℝ))]
  rw [numericalLoop, if_neg (lt_irrefl 0)]
  simp only [zero_div, mul_zero, ite_self]
  rw [numericalLoop_y_neg g Cd m 10000 _ _ _ _ (by nlinarith)]

/-- With negative initial vertical velocity and positive gravity the
analytical total flight time is negative, so the sampling loop runs zero
iterations. -/
theorem calculateAnalytical_vy_neg (v angle g : ℝ) (hg : 0 < g)
    (hvy : v * Real.sin (angle * PI / 180) < 0) :
    calculateAnalytical v angle g = [] := by
  have hT : 2 * (v * Real.sin (angle * PI / 180)) / g < 0 :=
    div_neg_of_neg_of_pos (by linarith) hg
  have hq : (2 * (v * Real.sin (angle * PI / 180)) / g) / 0.02 < 0 :=
    div_neg_of_neg_of_pos hT (by norm_num)
  have hfl : ⌊(2 * (v * Real.sin (angle * PI / 180)) / g) / 0.02⌋ < 0 := by
    rw [show ((0 : ℤ) : ℤ) = ((0 : ℤ)) from rfl]
    exact Int.floor_lt.mpr (by exact_mod_cast hq)
  have hfuel : (⌊(2 * (v * Real.sin (angle * PI / 180)) / g) / 0.02⌋ + 1).toNat = 0 := by
    omega
  show analyticalAux (v * Real.cos (angle * PI / 180))
      (v * Real.sin (angle * PI / 180)) g 0.02
      (2 * (v * Real.sin (angle * PI / 180)) / g)
      ((⌊(2 * (v * Real.sin (angle * PI / 180)) / g) / 0.02⌋ + 1).toNat) 0 = []
  rw [hfuel]
  rfl

/-- With zero initial vertical velocity the analytical total flight time is
zero, so the sampling loop emits exactly the origin sample at t = 0. -/
theorem calculateAnalytical_vy_zero (v angle g : ℝ)
    (hvy : v * Real.sin (angle * PI / 180) = 0) :
    calculateAnalytical v angle g = [((0 : ℝ), (0 : ℝ))] := by
  show analyticalAux (v * Real.cos (angle * PI / 180))
      (v * Real.sin (angle * PI / 180)) g 0.02
      (2 * (v * Real.sin (angle * PI / 180)) / g)
      ((⌊(2 * (v * Real.sin (angle * PI / 180)) / g) / 0.02⌋ + 1).toNat) 0 = [((0 : ℝ), (0 : ℝ))]
  rw [hvy]
  have hT : (2 : ℝ) * 0 / g = 0 := by ring
  rw [hT]
  have hfuel : ((⌊(0 : ℝ) / 0.02⌋ + 1).toNat) = 0 + 1 := by norm_num
  rw [hfuel]
  simp only [analyticalAux]
  norm_num

/-- With zero initial vertical velocity and positive gravity the drag path
stores exactly the origin. -/
theorem calculateNumerical_vy_zero (v angle g Cd m : ℝ) (hg : 0 < g)
    (hvy : v * Real.sin (angle * PI / 180) = 0) :
    calculateNumerical v angle g Cd m = [((0 : ℝ), (0 : ℝ))] := by
  show numericalLoop g Cd m 10001 0 0 (v * Real.cos (angle * PI / 180))
      (v * Real.sin (angle * PI / 180)) = [((0 : ℝ), (0 : ℝ))]
  rw [hvy]
  exact numericalLoop_vy_zero g Cd m _ hg

/-- The head of a non-empty analytical trajectory is the t = 0 sample, the
origin. -/
theorem analyticalAux_head (vx vy g dt T : ℝ) (k : ℕ) :
    analyticalAux vx vy g dt T k 0 = [] ∨
      (analyticalAux vx vy g dt T k 0).head? = some ((0 : ℝ), (0 : ℝ)) := by
  cases k with
  | zero => left; rfl
  | succ n =>
    by_cases hT : (0 : ℝ) ≤ T
    · right
      rw [analyticalAux, if_pos hT,
        if_neg (by norm_num : ¬ (vy * 0 - 0.5 * g * (0 * 0) < (0 : ℝ)))]
      norm_num
    · left; rw [analyticalAux, if_neg hT]

/-- getMaxHeight of the one-point trajectory at the origin is 0. -/
theorem getMaxHeight_origin : getMaxHeight [((0 : ℝ), (0 : ℝ))] = 0 := by
  simp [getMaxHeight]

/-- C5 (amended): calculateTrajectory performs no parameter validation and
has no error path: in each invalid-parameter class the spec lists —
initialVelocity ≤ 0, negative gravity, and with drag enabled negative mass
or dragCoefficient ≤ 0 — every parameter value of the class combined with a
level launch (angle = 0) makes the engine silently compute the trajectory
[(0,0)] instead of raising an InvalidParameter condition.  gravity = 0 is
excluded: there the source's analytical loop compares t against an infinite
totalTime and never returns a trajectory at all; mass = 0 with drag
similarly produces non-finite IEEE values with no real counterpart. -/
theorem no_validation (v g Cd m : ℝ) :
    (v ≤ 0 →
      calculateTrajectory ⟨v, 0, 9.8, false, 0.47, 1⟩ = [((0 : ℝ), (0 : ℝ))]) ∧
    (g < 0 →
      calculateTrajectory ⟨50, 0, g, false, 0.47, 1⟩ = [((0 : ℝ), (0 : ℝ))]) ∧
    (m < 0 →
      calculateTrajectory ⟨50, 0, 9.8, true, 0.47, m⟩ = [((0 : ℝ), (0 : ℝ))]) ∧
    (Cd ≤ 0 →
      calculateTrajectory ⟨50, 0, 9.8, true, Cd, 1⟩ = [((0 : ℝ), (0 : ℝ))]) := by
  refine ⟨fun _ => ?_, fun _ => ?_, fun _ => ?_, fun _ => ?_⟩
  · show calculateAnalytical v 0 9.8 = [((0 : ℝ), (0 : ℝ))]
    exact calculateAnalytical_vy_zero v 0 9.8 (by simp)
  · show calculateAnalytical 50 0 g = [((0 : ℝ), (0 : ℝ))]
    exact calculateAnalytical_vy_zero 50 0 g (by simp)
  · show calculateNumerical 50 0 9.8 0.47 m = [((0 : ℝ), (0 : ℝ))]
    exact calculateNumerical_vy_zero 50 0 9.8 0.47 m (by norm_num) (by simp)
  · show calculateNumerical 50 0 9.8 Cd 1 = [((0 : ℝ), (0 : ℝ))]
    exact calculateNumerical_vy_zero 50 0 9.8 Cd 1 (by norm_num) (by simp)

/-- Witness for C5 (amended): one concrete invalid input per class —
v = −5, g = −9.8, m = −1, Cd = −0.47 — each silently yields [(0,0)]. -/
theorem no_validation_witness :
    calculateTrajectory ⟨-5, 0, 9.8, false, 0.47, 1⟩ = [((0 : ℝ), (0 : ℝ))] ∧
    calculateTrajectory ⟨50, 0, -9.8, false, 0.47, 1⟩ = [((0 : ℝ), (0 : ℝ))] ∧
    calculateTrajectory ⟨50, 0, 9.8, true, 0.47, -1⟩ = [((0 : ℝ), (0 : ℝ))] ∧
    calculateTrajectory ⟨50, 0, 9.8, true, -0.47, 1⟩ = [((0 : ℝ), (0 : ℝ))] := by
  obtain ⟨h1, h2, h3, h4⟩ := no_validation (-5) (-9.8) (-0.47) (-1)
  exact ⟨h1 (by norm_num), h2 (by norm_num), h3 (by norm_num), h4 (by norm_num)⟩

/-- C5 (counterexample): the claim that the engine raises InvalidParameter
and never silently computes a trajectory from invalid parameters is false:
at the invalid input initialVelocity = −5 (analytical path, level launch)
the engine silently produces the trajectory [(0,0)]. -/
theorem no_validation_counterexample :
    calculateTrajectory ⟨-5, 0, 9.8, false, 0.47, 1⟩ = [((0 : ℝ), (0 : ℝ))] := by
  show calculateAnalytical (-5) 0 9.8 = [((0 : ℝ), (0 : ℝ))]
  exact calculateAnalytical_vy_zero (-5) 0 9.8 (by simp)

/-- C7 (amended): for drag-free launches with vy ≤ 0 and positive gravity
the trajectory contains only the origin point or is empty; on either path a
launch with vy = 0 (for example angle = 0) produces at most one stored point
and maxHeight returns 0.  (The original claim's universal form over drag
runs fails for vy < 0 with a large drag coefficient: see the
counterexample.) -/
theorem degenerate_launch (d : ProjectileData) (hg : 0 < d.gravity)
    (hvy : d.initialVelocity * Real.sin (d.angle * PI / 180) ≤ 0) :
    (d.airResistance = false →
      calculateTrajectory d = [] ∨ calculateTrajectory d = [((0 : ℝ), (0 : ℝ))]) ∧
    (d.initialVelocity * Real.sin (d.angle * PI / 180) = 0 →
      (calculateTrajectory d).length ≤ 1 ∧
        getMaxHeight (calculateTrajectory d) = 0) := by
  constructor
  · intro hair
    have htraj : calculateTrajectory d
        = calculateAnalytical d.initialVelocity d.angle d.gravity := by
      simp [calculateTrajectory, hair]
    rcases hvy.lt_or_eq with hlt | heq
    · left; rw [htraj]; exact calculateAnalytical_vy_neg _ _ _ hg hlt
    · right; rw [htraj]; exact calculateAnalytical_vy_zero _ _ _ heq
  · intro h0
    have htraj : calculateTrajectory d = [((0 : ℝ), (0 : ℝ))] := by
      cases hair : d.airResistance
      · have h : calculateTrajectory d
            = calculateAnalytical d.initialVelocity d.angle d.gravity := by
          simp [calculateTrajectory, hair]
        rw [h]; exact calculateAnalytical_vy_zero _ _ _ h0
      · have h : calculateTrajectory d
            = calculateNumerical d.initialVelocity d.angle d.gravity
                d.dragCoefficient d.mass := by
          simp [calculateTrajectory, hair]
        rw [h]; exact calculateNumerical_vy_zero _ _ _ _ _ hg h0
    rw [htraj]
    exact ⟨by simp, getMaxHeight_origin⟩

/-- Witness for C7 (amended) at v = 5, angle = 0, g = 9.8, drag off. -/
theorem degenerate_launch_witness :
    (0 : ℝ) < 9.8 ∧ (5 : ℝ) * Real.sin (0 * PI / 180) ≤ 0 ∧
      (((false : Bool) = false →
        calculateTrajectory ⟨5, 0, 9.8, false, 0.47, 1⟩ = [] ∨
          calculateTrajectory ⟨5, 0, 9.8, false, 0.47, 1⟩ = [((0 : ℝ), (0 : ℝ))]) ∧
      ((5 : ℝ) * Real.sin (0 * PI / 180) = 0 →
        (calculateTrajectory ⟨5, 0, 9.8, false, 0.47, 1⟩).length ≤ 1 ∧
          getMaxHeight (calculateTrajectory ⟨5, 0, 9.8, false, 0.47, 1⟩) = 0)) :=
  ⟨by norm_num, by simp,
    degenerate_launch ⟨5, 0, 9.8, false, 0.47, 1⟩ (by norm_num) (by simp)⟩

/-- C7 (counterexample): all parameters are valid (v = 1, g = 9.8,
Cd = 100000, m = 1, all positive) and the launch points straight down — the
angle is chosen so that the radian conversion yields exactly −π/2, hence
vy = −1 ≤ 0 — yet with drag enabled the first explicit-Euler step lets the
huge drag force overshoot and push the projectile back above ground: the
second stored point is (0, 0.05027), which is neither absent nor the origin,
refuting the claim that such a trajectory contains only the origin point or
is empty. -/
theorem degenerate_launch_counterexample :
    (1 : ℝ) * Real.sin (-(90 * Real.pi / PI) * PI / 180) ≤ 0 ∧
    (calculateTrajectory ⟨1, -(90 * Real.pi / PI), 9.8, true, 100000, 1⟩)[1]? =
      some ((0 : ℝ), (0.05027 : ℝ)) ∧
    ((0 : ℝ), (0.05027 : ℝ)) ≠ ((0 : ℝ), (0 : ℝ)) := by
  have hPI : (PI : ℝ) ≠ 0 := by norm_num [PI]
  have hrad : -(90 * Real.pi / PI) * PI / 180 = -(Real.pi / 2) := by
    field_simp
    ring
  have hsin : Real.sin (-(90 * Real.pi / PI) * PI / 180) = -1 := by
    rw [hrad]
    simp
  have hcos : Real.cos (-(90 * Real.pi / PI) * PI / 180) = 0 := by
    rw [hrad]
    simp
  refine ⟨by rw [hsin]; norm_num, ?_, by norm_num [Prod.ext_iff]⟩
  have h0 : calculateTrajectory ⟨1, -(90 * Real.pi / PI), 9.8, true, 100000, 1⟩
      = numericalLoop 9.8 100000 1 10001 0 0
          (1 * Real.cos (-(90 * Real.pi / PI) * PI / 180))
          (1 * Real.sin (-(90 * Real.pi / PI) * PI / 180)) := rfl
  rw [h0, hsin, hcos]
  have hstep1 : numericalLoop 9.8 100000 1 10001 0 0 (1 * 0) (1 * -1)
      = ((0 : ℝ), (0 : ℝ)) :: numericalLoop 9.8 100000 1 10000 0 0.05027 0 5.027 := by
    show numericalLoop 9.8 100000 1 (10000 + 1) 0 0 (1 * 0) (1 * -1) = _
    rw [numericalLoop, if_neg (by norm_num : ¬ (0 : ℝ) < 0)]
    norm_num [Real.sqrt_one]
  rw [hstep1]
  have hhead : (numericalLoop 9.8 100000 1 10000 0 0.05027 0 5.027).head?
      = some ((0 : ℝ), (0.05027 : ℝ)) :=
    numericalLoop_head 9.8 100000 1 9999 0 0.05027 0 5.027 (by norm_num)
  cases hl : numericalLoop 9.8 100000 1 10000 0 0.05027 0 5.027 with
  | nil => rw [hl] at hhead; simp at hhead
  | cons b t =>
    rw [hl] at hhead
    simp only [List.head?_cons, Option.some.injEq] at hhead
    subst hhead
    simp

/-! ### Lemmas about the running maximum used by getMaxHeight -/

/-- The running maximum of getMaxHeight never goes below its seed. -/
theorem le_maxFold (tr : List (ℝ × ℝ)) :
    ∀ m0 : ℝ, m0 ≤ tr.foldl (fun maxH p => if p.2 > maxH then p.2 else maxH) m0 := by
  induction tr with
  | nil => intro m0; simp
  | cons a l ih =>
    intro m0
    simp only [List.foldl_cons]
    refine le_trans ?_ (ih _)
    by_cases h : a.2 > m0
    · rw [if_pos h]; exact le_of_lt h
    · rw [if_neg h]

/-- The running maximum of getMaxHeight bounds every y in the list. -/
theorem mem_le_maxFold (tr : List (ℝ × ℝ)) :
    ∀ (m0 : ℝ) (p : ℝ × ℝ), p ∈ tr →
      p.2 ≤ tr.foldl (fun maxH q => if q.2 > maxH then q.2 else maxH) m0 := by
  induction tr with
  | nil => intro m0 p hp; simp at hp
  | cons a l ih =>
    intro m0 p hp
    simp only [List.foldl_cons]
    rcases List.mem_cons.mp hp with h | h
    · subst h
      refine le_trans ?_ (le_maxFold l _)
      by_cases hc : p.2 > m0
      · rw [if_pos hc]
      · rw [if_neg hc]; exact le_of_not_lt hc
    · exact ih _ p h

/-- The running maximum of getMaxHeight is either its seed or the y of some
stored point. -/
theorem maxFold_attained (tr : List (ℝ × ℝ)) :
    ∀ m0 : ℝ, tr.foldl (fun maxH q => if q.2 > maxH then q.2 else maxH) m0 = m0 ∨
      ∃ p ∈ tr, tr.foldl (fun maxH q => if q.2 > maxH then q.2 else maxH) m0 = p.2 := by
  induction tr with
  | nil => intro m0; left; rfl
  | cons a l ih =>
    intro m0
    simp only [List.foldl_cons]
    rcases ih (if a.2 > m0 then a.2 else m0) with h | ⟨p, hp, hq⟩
    · by_cases hc : a.2 > m0
      · right
        exact ⟨a, List.mem_cons_self a l, by rw [h, if_pos hc]⟩
      · left
        rw [h, if_neg hc]
    · right
      exact ⟨p, List.mem_cons_of_mem a hp, hq⟩

/-- A non-empty analytical trajectory starts at the origin. -/
theorem calculateAnalytical_head (v angle g : ℝ) :
    calculateAnalytical v angle g = [] ∨
      (calculateAnalytical v angle g).head? = some ((0 : ℝ), (0 : ℝ)) :=
  analyticalAux_head _ _ _ _ _ _

/-- A non-empty computed trajectory (either path) starts at the origin. -/
theorem calculateTrajectory_head (d : ProjectileData)
    (hne : calculateTrajectory d ≠ []) :
    (calculateTrajectory d).head? = some ((0 : ℝ), (0 : ℝ)) := by
  cases hair : d.airResistance
  · have h : calculateTrajectory d
        = calculateAnalytical d.initialVelocity d.angle d.gravity := by
      simp [calculateTrajectory, hair]
    rw [h] at hne ⊢
    rcases calculateAnalytical_head d.initialVelocity d.angle d.gravity with h1 | h1
    · exact absurd h1 hne
    · exact h1
  · have h : calculateTrajectory d
        = calculateNumerical d.initialVelocity d.angle d.gravity
            d.dragCoefficient d.mass := by
      simp [calculateTrajectory, hair]
    rw [h]
    exact numericalLoop_head d.gravity d.dragCoefficient d.mass 10000 0 0 _ _
      (lt_irrefl 0)

/-- C6: every metric query on the empty trajectory returns the defined zero
value — maxHeight, range and flightTime — and on a non-empty computed
trajectory maxHeight is the maximum y over all stored points (attained at a
stored point and bounding them all) and range is the x of the last stored
point. -/
theorem metric_queries (d : ProjectileData) (hne : calculateTrajectory d ≠ []) :
    getMaxHeight ([] : List (ℝ × ℝ)) = 0 ∧
    getRange ([] : List (ℝ × ℝ)) = 0 ∧
    getFlightTime d [] = 0 ∧
    (∃ q ∈ calculateTrajectory d,
      getMaxHeight (calculateTrajectory d) = q.2 ∧
        ∀ p ∈ calculateTrajectory d, p.2 ≤ q.2) ∧
    ∃ q, (calculateTrajectory d).getLast? = some q ∧
      getRange (calculateTrajectory d) = q.1 := by
  refine ⟨rfl, rfl, by simp [getFlightTime], ?_, ?_⟩
  · have hhead : (calculateTrajectory d).head? = some ((0 : ℝ), (0 : ℝ)) :=
      calculateTrajectory_head d hne
    have hmem0 : ((0 : ℝ), (0 : ℝ)) ∈ calculateTrajectory d :=
      List.mem_of_mem_head? (by rw [hhead]; rfl)
    have hbound := mem_le_maxFold (calculateTrajectory d) 0
    rcases maxFold_attained (calculateTrajectory d) 0 with h | ⟨p, hp, hq⟩
    · exact ⟨((0 : ℝ), (0 : ℝ)), hmem0, h,
        fun p hp => le_of_le_of_eq (hbound p hp) h⟩
    · exact ⟨p, hp, hq, fun r hr => le_of_le_of_eq (hbound r hr) hq⟩
  · refine ⟨(calculateTrajectory d).getLast hne,
      List.getLast?_eq_getLast_of_ne_nil hne, ?_⟩
    show (match (calculateTrajectory d).getLast? with
      | none => (0 : ℝ)
      | some p => p.1) = ((calculateTrajectory d).getLast hne).1
    rw [List.getLast?_eq_getLast_of_ne_nil hne]

/-- Witness for C6 at v = 1, angle = 0, g = 9.8, drag off, where the
computed trajectory is the non-empty [(0,0)]. -/
theorem metric_queries_witness :
    calculateTrajectory ⟨1, 0, 9.8, false, 0.47, 1⟩ ≠ [] ∧
      (getMaxHeight ([] : List (ℝ × ℝ)) = 0 ∧
      getRange ([] : List (ℝ × ℝ)) = 0 ∧
      getFlightTime ⟨1, 0, 9.8, false, 0.47, 1⟩ [] = 0 ∧
      (∃ q ∈ calculateTrajectory ⟨1, 0, 9.8, false, 0.47, 1⟩,
        getMaxHeight (calculateTrajectory ⟨1, 0, 9.8, false, 0.47, 1⟩) = q.2 ∧
          ∀ p ∈ calculateTrajectory ⟨1, 0, 9.8, false, 0.47, 1⟩, p.2 ≤ q.2) ∧
      ∃ q, (calculateTrajectory ⟨1, 0, 9.8, false, 0.47, 1⟩).getLast? = some q ∧
        getRange (calculateTrajectory ⟨1, 0, 9.8, false, 0.47, 1⟩) = q.1) := by
  have htr : calculateTrajectory ⟨1, 0, 9.8, false, 0.47, 1⟩ = [((0 : ℝ), (0 : ℝ))] :=
    calculateAnalytical_vy_zero 1 0 9.8 (by simp)
  have hne : calculateTrajectory ⟨1, 0, 9.8, false, 0.47, 1⟩ ≠ [] := by
    rw [htr]; simp
  exact ⟨hne, metric_queries ⟨1, 0, 9.8, false, 0.47, 1⟩ hne⟩

end Projectile
